import Mathlib

set_option maxHeartbeats 1000000

/-!
Shallow embedding of the timing/judgment core of the finger-flow-game
repository (src/js/conductor.js and src/js/input.js), together with
theorems checking the specification's claims against it.

Modelling conventions:
* JS numbers holding times, timestamps and offsets are modelled as `ℚ`
  (exact arithmetic; the comparisons in the source are on decimal
  constants that are exactly representable).
* JS `null` anchors: `performanceStartTime` starts as `null` in the
  source but is only ever read by `update` while `isRunning = true`,
  and every way of setting `isRunning := true` also stores a fresh
  anchor; it is modelled as a plain `ℚ` initialised to `0`.
* DOM manipulation (element creation, CSS classes, fall position) and
  `console.log` calls are presentation-only and carry no game state;
  they are omitted.  The `NoteManager.notes` append-only log is read
  by no game-logic operation and is omitted as well.
* Mutation is modelled by state passing: each method takes and returns
  the record it mutates.  `forEach` loops that mutate notes in place
  become recursions returning the rewritten list together with the
  updated statistics.
-/

namespace FingerFlow

/-- Accuracy tiers of a judgment, the keys of the `JUDGMENT_WINDOWS` and
`JUDGMENT_SCORES` tables in src/js/input.js. -/
inductive Judgment where
  | PERFECT
  | GREAT
  | GOOD
  | MISS
deriving DecidableEq

/-- JUDGMENT_WINDOWS.PERFECT = 0.050 s (src/js/input.js). -/
def PERFECT_WINDOW : ℚ := 0.050

/-- JUDGMENT_WINDOWS.GREAT = 0.100 s. -/
def GREAT_WINDOW : ℚ := 0.100

/-- JUDGMENT_WINDOWS.GOOD = 0.150 s. -/
def GOOD_WINDOW : ℚ := 0.150

/-- JUDGMENT_WINDOWS.MISS = 0.200 s. -/
def MISS_WINDOW : ℚ := 0.200

/-- JUDGMENT_SCORES table (src/js/input.js). -/
def JUDGMENT_SCORES : Judgment → ℕ
  | .PERFECT => 100
  | .GREAT => 80
  | .GOOD => 50
  | .MISS => 0

/-- One falling note (class `Note` in src/js/input.js); the DOM element,
fall speed and rendering are omitted. -/
structure Note where
  track : ℕ
  hitTime : ℚ
  isHit : Bool
  isMissed : Bool
deriving DecidableEq

/-- Constructor `new Note(track, hitTime)`: both resolution flags start
false (`createElement` is presentation-only). -/
def Note.create (track : ℕ) (hitTime : ℚ) : Note :=
  { track := track, hitTime := hitTime, isHit := false, isMissed := false }

/-- `Note.miss()`: mark the note as missed (DOM fade-out omitted). -/
def Note.miss (n : Note) : Note := { n with isMissed := true }

/-- `Note.hit(judgment)`: mark the note as hit; the judgment argument is
used only for the CSS class of the exit animation. -/
def Note.hit (n : Note) (_judgment : Judgment) : Note := { n with isHit := true }

/-- `Note.update(currentTime, deltaTime)`: state-relevant part only.  A
pending note whose time difference `hitTime - currentTime` has dropped
below `-MISS_WINDOW` is marked missed; otherwise only the (omitted) DOM
position changes.  `deltaTime` is unused by the source as well. -/
def Note.update (currentTime : ℚ) (n : Note) : Note :=
  if n.isHit || n.isMissed then n
  else if n.hitTime - currentTime < -MISS_WINDOW then n.miss
  else n

/-- `Note.judge(currentTime)`: ordered first-match classification of the
absolute timing error against the four windows.  Returns the judgment
(if any) and the note, which is marked hit exactly when a judgment was
produced. -/
def Note.judge (currentTime : ℚ) (n : Note) : Option Judgment × Note :=
  if n.isHit || n.isMissed then (none, n)
  else
    match (if |n.hitTime - currentTime| ≤ PERFECT_WINDOW then some Judgment.PERFECT
      else if |n.hitTime - currentTime| ≤ GREAT_WINDOW then some Judgment.GREAT
      else if |n.hitTime - currentTime| ≤ GOOD_WINDOW then some Judgment.GOOD
      else if |n.hitTime - currentTime| ≤ MISS_WINDOW then some Judgment.MISS
      else none) with
    | some j => (some j, n.hit j)
    | none => (none, n)

/-- One chart entry `{track, time}` (src/js/input.js `loadChart`). -/
structure ChartEntry where
  track : ℕ
  time : ℚ
deriving DecidableEq

/-- The `judgmentCounts` record of `NoteManager`. -/
structure JudgmentCounts where
  PERFECT : ℕ
  GREAT : ℕ
  GOOD : ℕ
  MISS : ℕ
deriving DecidableEq

/-- All four counts zero (the constructor / reset value). -/
def JudgmentCounts.zero : JudgmentCounts := ⟨0, 0, 0, 0⟩

/-- `this.judgmentCounts[judgment]++`. -/
def JudgmentCounts.inc (c : JudgmentCounts) : Judgment → JudgmentCounts
  | .PERFECT => { c with PERFECT := c.PERFECT + 1 }
  | .GREAT => { c with GREAT := c.GREAT + 1 }
  | .GOOD => { c with GOOD := c.GOOD + 1 }
  | .MISS => { c with MISS := c.MISS + 1 }

/-- `Object.values(this.judgmentCounts).reduce((a, b) => a + b, 0)`. -/
def JudgmentCounts.total (c : JudgmentCounts) : ℕ :=
  c.PERFECT + c.GREAT + c.GOOD + c.MISS

/-- State of class `NoteManager` (src/js/input.js).  The `notes` log is
omitted (see the module comment). -/
structure NoteManager where
  activeNotes : List Note
  chart : List ChartEntry
  chartIndex : ℕ
  score : ℕ
  combo : ℕ
  maxCombo : ℕ
  judgmentCounts : JudgmentCounts
  spawnTime : ℚ
deriving DecidableEq

/-- The `NoteManager` constructor state: everything empty/zero, spawn
look-ahead `this.spawnTime = 2.0` seconds. -/
def NoteManager.init : NoteManager :=
  { activeNotes := [], chart := [], chartIndex := 0, score := 0, combo := 0,
    maxCombo := 0, judgmentCounts := .zero, spawnTime := 2 }

/-- Insert an entry into a list already sorted ascending by `time`,
placing it before the first entry of greater-or-equal time. -/
def insertSorted (e : ChartEntry) : List ChartEntry → List ChartEntry
  | [] => [e]
  | x :: xs => if e.time ≤ x.time then e :: x :: xs else x :: insertSorted e xs

/-- Stable ascending-by-`time` insertion sort, modelling
`chart.sort((a, b) => a.time - b.time)` in `loadChart` (JS `Array.sort`
is a stable comparison sort). -/
def sortChart : List ChartEntry → List ChartEntry
  | [] => []
  | x :: xs => insertSorted x (sortChart xs)

/-- `loadChart(chart)`: store the chart sorted ascending by time and
reset the consumption index. -/
def NoteManager.loadChart (chart : List ChartEntry) (s : NoteManager) : NoteManager :=
  { s with chart := sortChart chart, chartIndex := 0 }

/-- The note a spawned chart entry turns into. -/
def noteOfEntry (e : ChartEntry) : Note := Note.create e.track e.time

/-- The while-loop body of `spawnNotes`, run on the unconsumed suffix of
the chart: take entries while `time <= currentTime + spawnTime`,
returning the spawned notes in order and how far the index advanced. -/
def spawnNotesGo (currentTime spawnTime : ℚ) : List ChartEntry → List Note × ℕ
  | [] => ([], 0)
  | e :: rest =>
    if e.time ≤ currentTime + spawnTime then
      let r := spawnNotesGo currentTime spawnTime rest
      (noteOfEntry e :: r.1, r.2 + 1)
    else ([], 0)

/-- `spawnNotes(currentTime)`: spawn every not-yet-consumed chart entry
whose target time is within the look-ahead window, appending the new
notes to `activeNotes` and advancing `chartIndex`. -/
def NoteManager.spawnNotes (currentTime : ℚ) (s : NoteManager) : NoteManager :=
  let r := spawnNotesGo currentTime s.spawnTime (s.chart.drop s.chartIndex)
  { s with activeNotes := s.activeNotes ++ r.1, chartIndex := s.chartIndex + r.2 }

/-- `addJudgment(judgment)`: bump the tier count, add the tier score,
and reset the combo on Miss or extend it (updating `maxCombo`)
otherwise. -/
def NoteManager.addJudgment (j : Judgment) (s : NoteManager) : NoteManager :=
  let s1 := { s with judgmentCounts := s.judgmentCounts.inc j,
                     score := s.score + JUDGMENT_SCORES j }
  if j = .MISS then { s1 with combo := 0 }
  else
    let newCombo := s1.combo + 1
    { s1 with combo := newCombo,
              maxCombo := if newCombo > s1.maxCombo then newCombo else s1.maxCombo }

/-- The `forEach` body of `checkAutoMiss`: walk the active notes; every
pending note with `currentTime - hitTime > MISS_WINDOW` is marked missed
and a MISS judgment is recorded. -/
def checkAutoMissGo (currentTime : ℚ) : List Note → NoteManager → List Note × NoteManager
  | [], s => ([], s)
  | n :: rest, s =>
    if n.isHit = false ∧ n.isMissed = false ∧ currentTime - n.hitTime > MISS_WINDOW then
      let r := checkAutoMissGo currentTime rest (s.addJudgment .MISS)
      (n.miss :: r.1, r.2)
    else
      let r := checkAutoMissGo currentTime rest s
      (n :: r.1, r.2)

/-- `checkAutoMiss(currentTime)` on the whole manager state. -/
def NoteManager.checkAutoMiss (currentTime : ℚ) (s : NoteManager) : NoteManager :=
  let r := checkAutoMissGo currentTime s.activeNotes s
  { r.2 with activeNotes := r.1 }

/-- `NoteManager.update(currentTime, deltaTime)`: spawn, age every
active note, drop resolved notes, then run the auto-miss check — in
exactly the source's order. -/
def NoteManager.update (currentTime _deltaTime : ℚ) (s : NoteManager) : NoteManager :=
  let s1 := s.spawnNotes currentTime
  let s2 := { s1 with activeNotes := s1.activeNotes.map (Note.update currentTime) }
  let s3 := { s2 with activeNotes := s2.activeNotes.filter fun n => !n.isHit && !n.isMissed }
  s3.checkAutoMiss currentTime

/-- The `forEach` selection loop of `hit(track, currentTime)`: track the
pending note on the requested track with the smallest absolute time
difference, among notes within `MISS_WINDOW`; the JS `minTimeDiff`
starts at `Infinity`, so the accumulator is an `Option` of
(position, note, its time difference).  The strict `<` keeps the
earliest-seen note on ties. -/
def findClosestGo (track : ℕ) (currentTime : ℚ) :
    List Note → ℕ → Option (ℕ × Note × ℚ) → Option (ℕ × Note × ℚ)
  | [], _, best => best
  | n :: rest, i, best =>
    findClosestGo track currentTime rest (i + 1)
      (if n.track = track ∧ n.isHit = false ∧ n.isMissed = false then
        match best with
        | none =>
          if |n.hitTime - currentTime| ≤ MISS_WINDOW then some (i, n, |n.hitTime - currentTime|)
          else none
        | some (j, m, d) =>
          if |n.hitTime - currentTime| < d ∧ |n.hitTime - currentTime| ≤ MISS_WINDOW then
            some (i, n, |n.hitTime - currentTime|)
          else some (j, m, d)
      else best)

/-- `hit(track, currentTime)`: judge the closest eligible pending note
on the track, writing the (possibly) resolved note back at its position
and applying the judgment's statistics effect; with no eligible note the
call returns no judgment and the state is untouched. -/
def NoteManager.hit (track : ℕ) (currentTime : ℚ) (s : NoteManager) :
    Option Judgment × NoteManager :=
  match findClosestGo track currentTime s.activeNotes 0 none with
  | none => (none, s)
  | some (i, n, _) =>
    let r := n.judge currentTime
    let s2 := { s with activeNotes := s.activeNotes.set i r.2 }
    match r.1 with
    | some j => (some j, s2.addJudgment j)
    | none => (none, s2)

/-- JS `x.toFixed(2)` read back as a number: round to two decimals,
ties towards positive infinity (the ECMAScript `toFixed` rule picks the
larger candidate on ties). -/
def toFixed2 (q : ℚ) : ℚ := (⌊q * 100 + 1 / 2⌋ : ℤ) / 100

/-- `calculateAccuracy()`: 100 with no recorded judgments, otherwise the
weighted ratio formatted by `toFixed(2)`. -/
def NoteManager.calculateAccuracy (s : NoteManager) : ℚ :=
  let total := s.judgmentCounts.total
  if total = 0 then 100
  else
    let weighted : ℕ := s.judgmentCounts.PERFECT * 100 + s.judgmentCounts.GREAT * 80 +
      s.judgmentCounts.GOOD * 50
    toFixed2 ((weighted : ℚ) / ((total : ℚ) * 100) * 100)

/-- A note is an eligible candidate for `hit(track, t)` when it is
pending, on the requested track, and within the Miss window of `t`. -/
def isCandidate (track : ℕ) (t : ℚ) (n : Note) : Prop :=
  n.track = track ∧ n.isHit = false ∧ n.isMissed = false ∧ |n.hitTime - t| ≤ MISS_WINDOW

/-- State of class `Conductor` (src/js/conductor.js).  `startTime`
(wall-clock `Date.now()`) is never read back and is omitted;
`performanceStartTime` is the `performance.now()` anchor in
milliseconds. -/
structure Conductor where
  currentTime : ℚ
  isRunning : Bool
  bpm : ℚ
  timeOffset : ℚ
  performanceStartTime : ℚ
  pausedTime : ℚ
deriving DecidableEq

/-- The `Conductor` constructor state. -/
def Conductor.init : Conductor :=
  { currentTime := 0, isRunning := false, bpm := 120, timeOffset := 0,
    performanceStartTime := 0, pausedTime := 0 }

/-- `start()`: no-op while running; otherwise restore a positive saved
pause time into `timeOffset`, take a fresh anchor (the caller's
`performance.now()` reading) and run. -/
def Conductor.start (nowPerf : ℚ) (c : Conductor) : Conductor :=
  if c.isRunning then c
  else
    let c1 := if c.pausedTime > 0 then { c with timeOffset := c.pausedTime, pausedTime := 0 }
      else c
    { c1 with performanceStartTime := nowPerf, isRunning := true }

/-- `pause()`: no-op while stopped; otherwise save the current time and
stop. -/
def Conductor.pause (c : Conductor) : Conductor :=
  if c.isRunning = false then c
  else { c with pausedTime := c.currentTime, isRunning := false }

/-- `reset()`: clear the timing state (the source leaves `bpm` alone). -/
def Conductor.reset (c : Conductor) : Conductor :=
  { c with currentTime := 0, isRunning := false, performanceStartTime := 0,
           timeOffset := 0, pausedTime := 0 }

/-- `update(timestamp)`: no-op while stopped; otherwise recompute the
elapsed time from the millisecond anchor plus the offset. -/
def Conductor.update (timestamp : ℚ) (c : Conductor) : Conductor :=
  if c.isRunning = false then c
  else { c with currentTime := (timestamp - c.performanceStartTime) / 1000 + c.timeOffset }

/-- `getCurrentTime()`. -/
def Conductor.getCurrentTime (c : Conductor) : ℚ := c.currentTime

/-- `getBeatDuration() = 60 / bpm`. -/
def Conductor.getBeatDuration (c : Conductor) : ℚ := 60 / c.bpm

/-- `seekTo(time)`: set the offset, re-anchor at the caller's
`performance.now()` reading, and set the current time immediately. -/
def Conductor.seekTo (nowPerf time : ℚ) (c : Conductor) : Conductor :=
  { c with timeOffset := time, performanceStartTime := nowPerf, currentTime := time }

/-- A sequence of `update` calls. -/
def Conductor.ticks (ts : List ℚ) (c : Conductor) : Conductor :=
  ts.foldl (fun c t => c.update t) c

/-- The list of `getCurrentTime()` readings taken after each `update`
call of a sequence. -/
def Conductor.tickTrace (c : Conductor) : List ℚ → List ℚ
  | [] => []
  | t :: rest => (c.update t).getCurrentTime :: (c.update t).tickTrace rest

/-- The chart of the spec's spawn scenario. -/
def chartEx : List ChartEntry := [⟨0, 3⟩, ⟨1, 3⟩, ⟨0, 5⟩]

/-- The manager with the scenario chart loaded. -/
def managerEx : NoteManager := NoteManager.init.loadChart chartEx

/-- A manager whose only pending note is far outside every window of
time 0 (for the stray-press scenario). -/
def managerFar : NoteManager :=
  { NoteManager.init with activeNotes := [⟨0, 10, false, false⟩] }

/-- A manager with a single pending note on track 0 at 3.0 s. -/
def managerOneNote : NoteManager :=
  { NoteManager.init with activeNotes := [⟨0, 3, false, false⟩] }

/-- A running conductor 5 s into the song, anchored at 0 ms. -/
def condRunning : Conductor :=
  { currentTime := 5, isRunning := true, bpm := 120, timeOffset := 5,
    performanceStartTime := 0, pausedTime := 0 }

/-- Judgment counts with two Perfects and one Great. -/
def countsTwoOne : JudgmentCounts := ⟨2, 1, 0, 0⟩

/-- Manager holding the two-Perfects-one-Great counts. -/
def managerAcc2 : NoteManager := { NoteManager.init with judgmentCounts := countsTwoOne }

/-- Manager holding one Perfect and one Great. -/
def managerAcc1 : NoteManager := { NoteManager.init with judgmentCounts := ⟨1, 1, 0, 0⟩ }

/-- Strict ordering on entries by time, used to show a sorted chart with
pairwise-distinct times is unique among its permutations. -/
def chartLt (a b : ChartEntry) : Prop := a.time < b.time

instance : IsAntisymm ChartEntry chartLt :=
  ⟨fun a _ h1 h2 => absurd (lt_trans h1 h2) (lt_irrefl a.time)⟩

/-- A two-entry chart with distinct times. -/
def chartPermA : List ChartEntry := [⟨0, 5⟩, ⟨1, 3⟩]

/-- The same two entries in the other order. -/
def chartPermB : List ChartEntry := [⟨1, 3⟩, ⟨0, 5⟩]

/-! ## Conductor lemmas -/

theorem ticks_cons (c : Conductor) (t : ℚ) (rest : List ℚ) :
    Conductor.ticks (t :: rest) c = Conductor.ticks rest (c.update t) := rfl

theorem ticks_of_stopped (ts : List ℚ) : ∀ (c : Conductor), c.isRunning = false →
    Conductor.ticks ts c = c := by
  induction ts with
  | nil => intro c _; rfl
  | cons t rest ih =>
    intro c h
    have hu : c.update t = c := by simp [Conductor.update, h]
    rw [ticks_cons, hu, ih c h]

theorem tickTrace_running (ts : List ℚ) : ∀ (c : Conductor), c.isRunning = true →
    c.tickTrace ts = ts.map fun x => (x - c.performanceStartTime) / 1000 + c.timeOffset := by
  induction ts with
  | nil => intro c _; rfl
  | cons t rest ih =>
    intro c hrun
    have hu : c.update t
        = { c with currentTime := (t - c.performanceStartTime) / 1000 + c.timeOffset } := by
      simp [Conductor.update, hrun]
    rw [Conductor.tickTrace, hu, ih _ (by simpa using hrun)]
    simp [Conductor.getCurrentTime]

/-- C6: for every time t, `seekTo(t)` sets the clock offset to t,
re-anchors the clock at the caller's instant, and sets the elapsed time
to t immediately, so `getCurrentTime()` returns exactly t right after
the call, before any subsequent update tick (and an update at the very
anchor instant still reads t). -/
theorem seekTo_immediately_consistent (c : Conductor) (nowPerf t : ℚ) :
    (c.seekTo nowPerf t).getCurrentTime = t
    ∧ (c.seekTo nowPerf t).timeOffset = t
    ∧ (c.seekTo nowPerf t).performanceStartTime = nowPerf
    ∧ ((c.seekTo nowPerf t).update nowPerf).getCurrentTime = t := by
  refine ⟨rfl, rfl, rfl, ?_⟩
  simp only [Conductor.seekTo, Conductor.update, Conductor.getCurrentTime]
  split
  · rfl
  · simp

/-- C7: after `pause()`, any number of update ticks leave
`getCurrentTime()` unchanged at the frozen value, and a later `start()`
resumes from exactly that value: the read right after `start()` is still
the frozen value, and the read after an update at timestamp `t`
(anchored at `anchor`) is the frozen value plus the elapsed wall time —
no discontinuity.  The hypothesis on the paused state covers every state
reachable through start/pause/update/seekTo (the offset equals the
current time whenever the latter is not yet positive). -/
theorem pause_freezes_start_resumes (c : Conductor) (ts : List ℚ) (anchor t : ℚ)
    (hrun : c.isRunning = true)
    (hreach : 0 < c.currentTime ∨ c.timeOffset = c.currentTime) :
    (Conductor.ticks ts c.pause).getCurrentTime = c.getCurrentTime
    ∧ ((Conductor.ticks ts c.pause).start anchor).getCurrentTime = c.getCurrentTime
    ∧ (((Conductor.ticks ts c.pause).start anchor).update t).getCurrentTime
      = c.getCurrentTime + (t - anchor) / 1000 := by
  have hp : c.pause = { c with pausedTime := c.currentTime, isRunning := false } := by
    simp [Conductor.pause, hrun]
  have hticks : Conductor.ticks ts c.pause = c.pause := by
    apply ticks_of_stopped
    rw [hp]
  rw [hticks, hp]
  refine ⟨rfl, ?_, ?_⟩
  · simp only [Conductor.start, Conductor.getCurrentTime]
    split
    · rfl
    · split <;> rfl
  · simp only [Conductor.start, Conductor.update, Conductor.getCurrentTime]
    split
    · simp_all
    · split
      · simp [Conductor.getCurrentTime]
        ring
      · rcases hreach with hpos | hoff
        · simp_all
        · simp [Conductor.getCurrentTime, hoff]
          ring

/-- C8: for every sequence of update calls with strictly increasing
timestamps while the clock is running (no pause or seek in between), the
successive `getCurrentTime()` readings are non-decreasing. -/
theorem tick_reads_monotone (c : Conductor) (ts : List ℚ)
    (hrun : c.isRunning = true) (hinc : ts.Chain' (· < ·)) :
    (c.tickTrace ts).Chain' (· ≤ ·) := by
  rw [tickTrace_running ts c hrun, List.chain'_map]
  exact hinc.imp fun {a b} hab => by linarith

/-! ## Lifecycle-engine lemmas -/

theorem checkAutoMissGo_no_overdue (t : ℚ) :
    ∀ (l : List Note) (s : NoteManager),
      (∀ n ∈ l, n.isHit = false → n.isMissed = false → ¬(t - n.hitTime > MISS_WINDOW)) →
      checkAutoMissGo t l s = (l, s) := by
  intro l
  induction l with
  | nil => intro s _; rfl
  | cons n rest ih =>
    intro s h
    rw [checkAutoMissGo]
    rw [if_neg]
    · rw [ih s fun m hm => h m (List.mem_cons_of_mem n hm)]
    · rintro ⟨h1, h2, h3⟩
      exact h n (List.mem_cons_self n rest) h1 h2 h3

theorem update_survivors_not_overdue (t : ℚ) (l : List Note) :
    ∀ n ∈ (l.map (Note.update t)).filter fun m => !m.isHit && !m.isMissed,
      n.isHit = false → n.isMissed = false → ¬(t - n.hitTime > MISS_WINDOW) := by
  intro n hn h1 h2
  rcases List.mem_filter.mp hn with ⟨hmem, _⟩
  rcases List.mem_map.mp hmem with ⟨m, _, hm⟩
  subst hm
  simp only [Note.update] at h1 h2 ⊢
  by_cases hres : (m.isHit || m.isMissed) = true
  · rw [if_pos hres] at h1 h2
    simp [h1, h2] at hres
  · by_cases hlate : m.hitTime - t < -MISS_WINDOW
    · rw [if_neg hres, if_pos hlate] at h2
      simp [Note.miss] at h2
    · rw [if_neg hres, if_neg hlate]
      intro hgt
      exact hlate (by linarith)

/-- C1 is a code bug: the general first conjunct shows that a full
`NoteManager.update` tick never changes any statistic — in particular a
note that times out during a tick produces no Miss judgment, because
`Note.update` has already marked it missed and the active-note filter
has removed it before `checkAutoMiss` runs, so `checkAutoMiss` never
finds an overdue pending note.  The remaining conjuncts evaluate the
failing trace: a chart with one note at 1.0 s is spawned pending at the
t = 1.0 tick; at the t = 1.5 tick (0.5 s past the target, beyond
MISS_WINDOW) the ageing step marks it missed, it vanishes from
`activeNotes`, and yet the MISS count stays 0, the combo is untouched
and no score side effect happens. -/
theorem update_auto_miss_emits_no_judgment :
    (∀ (s : NoteManager) (t dt : ℚ),
      (s.update t dt).score = s.score ∧ (s.update t dt).combo = s.combo
        ∧ (s.update t dt).maxCombo = s.maxCombo
        ∧ (s.update t dt).judgmentCounts = s.judgmentCounts)
    ∧ ((NoteManager.init.loadChart [⟨0, 1⟩]).update 1 0).activeNotes = [⟨0, 1, false, false⟩]
    ∧ (1 : ℚ) + 1/2 - 1 > MISS_WINDOW
    ∧ Note.update (1 + 1/2) ⟨0, 1, false, false⟩ = ⟨0, 1, false, true⟩
    ∧ (((NoteManager.init.loadChart [⟨0, 1⟩]).update 1 0).update (1 + 1/2) 0).activeNotes = []
    ∧ (((NoteManager.init.loadChart [⟨0, 1⟩]).update 1 0).update (1 + 1/2) 0).judgmentCounts
        = JudgmentCounts.zero
    ∧ (((NoteManager.init.loadChart [⟨0, 1⟩]).update 1 0).update (1 + 1/2) 0).combo = 0
    ∧ (((NoteManager.init.loadChart [⟨0, 1⟩]).update 1 0).update (1 + 1/2) 0).score = 0 := by
  have hgen : ∀ (s : NoteManager) (t dt : ℚ),
      (s.update t dt).score = s.score ∧ (s.update t dt).combo = s.combo
        ∧ (s.update t dt).maxCombo = s.maxCombo
        ∧ (s.update t dt).judgmentCounts = s.judgmentCounts := by
    intro s t dt
    simp only [NoteManager.update, NoteManager.checkAutoMiss, NoteManager.spawnNotes]
    rw [checkAutoMissGo_no_overdue t _ _ (update_survivors_not_overdue t _)]
    simp
  have h1 : (NoteManager.init.loadChart [⟨0, 1⟩]).update 1 0
      = { activeNotes := [⟨0, 1, false, false⟩], chart := [⟨0, 1⟩], chartIndex := 1,
          score := 0, combo := 0, maxCombo := 0, judgmentCounts := .zero, spawnTime := 2 } := by
    unfold NoteManager.loadChart NoteManager.update NoteManager.spawnNotes
      NoteManager.checkAutoMiss NoteManager.init
    norm_num [sortChart, insertSorted, spawnNotesGo, noteOfEntry, Note.create, Note.update,
      checkAutoMissGo, MISS_WINDOW]
  have h2 : (((NoteManager.init.loadChart [⟨0, 1⟩]).update 1 0).update (1 + 1/2) 0)
      = { activeNotes := [], chart := [⟨0, 1⟩], chartIndex := 1,
          score := 0, combo := 0, maxCombo := 0, judgmentCounts := .zero, spawnTime := 2 } := by
    rw [h1]
    unfold NoteManager.update NoteManager.spawnNotes NoteManager.checkAutoMiss
    norm_num [spawnNotesGo, Note.update, Note.miss, checkAutoMissGo, MISS_WINDOW]
  refine ⟨hgen, ?_, ?_, ?_, ?_, ?_, ?_, ?_⟩
  · rw [h1]
  · norm_num [MISS_WINDOW]
  · norm_num [Note.update, Note.miss, MISS_WINDOW]
  · rw [h2]
  · rw [h2]
  · rw [h2]
  · rw [h2]

/-! ## Spawn lemmas -/

theorem spawnNotesGo_sorted_filter (t st : ℚ) :
    ∀ l : List ChartEntry, l.Pairwise (fun a b => a.time ≤ b.time) →
      spawnNotesGo t st l
        = ((l.filter fun e => decide (e.time ≤ t + st)).map noteOfEntry,
           (l.filter fun e => decide (e.time ≤ t + st)).length) := by
  intro l
  induction l with
  | nil => intro _; rfl
  | cons e rest ih =>
    intro hp
    rcases List.pairwise_cons.mp hp with ⟨hhead, htail⟩
    rw [spawnNotesGo]
    by_cases h : e.time ≤ t + st
    · rw [if_pos h, ih htail]
      simp [List.filter_cons, h]
    · rw [if_neg h]
      have hnil : (rest.filter fun e2 => decide (e2.time ≤ t + st)) = [] := by
        rw [List.filter_eq_nil_iff]
        intro a ha
        simp only [decide_eq_true_eq]
        intro hle
        exact h (le_trans (hhead a ha) hle)
      simp [List.filter_cons, h, hnil]

/-- C2 counterexample: with the scenario chart loaded and look-ahead
2.0 s, `spawnNotes` at currentTime = 1.0 already spawns two notes (the
two t = 3.0 entries), where the claim asserts zero notes are spawned at
1.0: the look-ahead comparison `time <= currentTime + spawnTime` is
inclusive, and 3.0 <= 1.0 + 2.0 holds. -/
theorem spawn_at_exact_boundary_spawns :
    managerEx.activeNotes = []
    ∧ (managerEx.spawnNotes 1).activeNotes = [⟨0, 3, false, false⟩, ⟨1, 3, false, false⟩] := by
  have hm : managerEx
      = { activeNotes := [], chart := [⟨0, 3⟩, ⟨1, 3⟩, ⟨0, 5⟩], chartIndex := 0,
          score := 0, combo := 0, maxCombo := 0, judgmentCounts := .zero, spawnTime := 2 } := by
    unfold managerEx chartEx NoteManager.loadChart NoteManager.init
    norm_num [sortChart, insertSorted]
  constructor
  · rw [hm]
  · rw [hm]
    unfold NoteManager.spawnNotes
    norm_num [spawnNotesGo, noteOfEntry, Note.create]

/-- C2 amended: the look-ahead boundary is inclusive — spawnNotes spawns,
in chart order, exactly the unconsumed entries with
`targetTime <= currentTime + 2.0`, advancing the monotonic index by just
that many entries (first conjunct, for any state whose unconsumed chart
suffix is sorted ascending); in the concrete scenario both t = 3.0 notes
are spawned already at currentTime = 1.0, and a following call at 1.01
spawns nothing further. -/
theorem spawn_exactly_lookahead_window (s : NoteManager) (t : ℚ)
    (hsorted : (s.chart.drop s.chartIndex).Pairwise fun a b => a.time ≤ b.time) :
    ((s.spawnNotes t).activeNotes
        = s.activeNotes
          ++ ((s.chart.drop s.chartIndex).filter fun e =>
                decide (e.time ≤ t + s.spawnTime)).map noteOfEntry
      ∧ (s.spawnNotes t).chartIndex
        = s.chartIndex + ((s.chart.drop s.chartIndex).filter fun e =>
            decide (e.time ≤ t + s.spawnTime)).length)
    ∧ (managerEx.spawnNotes 1).activeNotes = [⟨0, 3, false, false⟩, ⟨1, 3, false, false⟩]
    ∧ (managerEx.spawnNotes 1).chartIndex = 2
    ∧ ((managerEx.spawnNotes 1).spawnNotes (101/100)).activeNotes
        = [⟨0, 3, false, false⟩, ⟨1, 3, false, false⟩]
    ∧ ((managerEx.spawnNotes 1).spawnNotes (101/100)).chartIndex = 2 := by
  have hm : managerEx
      = { activeNotes := [], chart := [⟨0, 3⟩, ⟨1, 3⟩, ⟨0, 5⟩], chartIndex := 0,
          score := 0, combo := 0, maxCombo := 0, judgmentCounts := .zero, spawnTime := 2 } := by
    unfold managerEx chartEx NoteManager.loadChart NoteManager.init
    norm_num [sortChart, insertSorted]
  have hconc : (managerEx.spawnNotes 1)
      = { activeNotes := [⟨0, 3, false, false⟩, ⟨1, 3, false, false⟩],
          chart := [⟨0, 3⟩, ⟨1, 3⟩, ⟨0, 5⟩], chartIndex := 2,
          score := 0, combo := 0, maxCombo := 0, judgmentCounts := .zero, spawnTime := 2 } := by
    rw [hm]
    unfold NoteManager.spawnNotes
    norm_num [spawnNotesGo, noteOfEntry, Note.create]
  have hconc2 : ((managerEx.spawnNotes 1).spawnNotes (101/100))
      = (managerEx.spawnNotes 1) := by
    rw [hconc]
    unfold NoteManager.spawnNotes
    norm_num [spawnNotesGo, noteOfEntry, Note.create]
  refine ⟨?_, ?_, ?_, ?_, ?_⟩
  · unfold NoteManager.spawnNotes
    rw [spawnNotesGo_sorted_filter t s.spawnTime _ hsorted]
    exact ⟨rfl, rfl⟩
  · rw [hconc]
  · rw [hconc]
  · rw [hconc2, hconc]
  · rw [hconc2, hconc]

/-! ## Judgment-engine lemmas -/

theorem findClosestGo_none (track : ℕ) (t : ℚ) :
    ∀ (l : List Note) (i : ℕ),
      (∀ n ∈ l, ¬isCandidate track t n) →
      findClosestGo track t l i none = none := by
  intro l
  induction l with
  | nil => intro i _; rfl
  | cons a rest ih =>
    intro i h
    simp only [findClosestGo]
    by_cases he : a.track = track ∧ a.isHit = false ∧ a.isMissed = false
    · rw [if_pos he,
        if_neg fun hd => h a (List.mem_cons_self a rest) ⟨he.1, he.2.1, he.2.2, hd⟩]
      exact ih (i + 1) fun m hm => h m (List.mem_cons_of_mem a hm)
    · rw [if_neg he]
      exact ih (i + 1) fun m hm => h m (List.mem_cons_of_mem a hm)

theorem findClosestGo_spec (track : ℕ) (t : ℚ) :
    ∀ (l : List Note) (i : ℕ) (best : Option (ℕ × Note × ℚ)),
      (∀ j m d, best = some (j, m, d) → isCandidate track t m ∧ d = |m.hitTime - t|) →
      ∀ j n d, findClosestGo track t l i best = some (j, n, d) →
        (isCandidate track t n ∧ d = |n.hitTime - t|)
        ∧ (∀ m ∈ l, isCandidate track t m → d ≤ |m.hitTime - t|)
        ∧ (∀ j0 m0 d0, best = some (j0, m0, d0) → d ≤ d0)
        ∧ (n ∈ l ∨ best = some (j, n, d)) := by
  intro l
  induction l with
  | nil =>
    intro i best hbest j n d hres
    simp only [findClosestGo] at hres
    refine ⟨hbest j n d hres, by simp, ?_, Or.inr hres⟩
    intro j0 m0 d0 h0
    rw [hres] at h0
    simp only [Option.some.injEq, Prod.mk.injEq] at h0
    exact le_of_eq h0.2.2
  | cons a rest ih =>
    intro i best hbest j n d hres
    by_cases he : a.track = track ∧ a.isHit = false ∧ a.isMissed = false
    · cases best with
      | none =>
        simp only [findClosestGo] at hres
        rw [if_pos he] at hres
        by_cases hd : |a.hitTime - t| ≤ MISS_WINDOW
        · rw [if_pos hd] at hres
          have hcand : isCandidate track t a := ⟨he.1, he.2.1, he.2.2, hd⟩
          have hinv : ∀ j2 m2 d2,
              (some (i, a, |a.hitTime - t|) : Option (ℕ × Note × ℚ)) = some (j2, m2, d2) →
              isCandidate track t m2 ∧ d2 = |m2.hitTime - t| := by
            intro j2 m2 d2 hh
            simp only [Option.some.injEq, Prod.mk.injEq] at hh
            rcases hh with ⟨-, hm2, hd2⟩
            rw [← hm2, ← hd2]
            exact ⟨hcand, rfl⟩
          obtain ⟨hc1, hc2, hc3, hc4⟩ := ih (i + 1) _ hinv j n d hres
          refine ⟨hc1, ?_, ?_, ?_⟩
          · intro m hm hcm
            rcases List.mem_cons.mp hm with hma | hm2
            · rw [hma]
              exact hc3 i a (|a.hitTime - t|) rfl
            · exact hc2 m hm2 hcm
          · intro j0 m0 d0 h0
            exact absurd h0 (by simp)
          · left
            rcases hc4 with hmem | hbe
            · exact List.mem_cons_of_mem a hmem
            · simp only [Option.some.injEq, Prod.mk.injEq] at hbe
              rw [← hbe.2.1]
              exact List.mem_cons_self a rest
        · rw [if_neg hd] at hres
          obtain ⟨hc1, hc2, hc3, hc4⟩ := ih (i + 1) none (by simp) j n d hres
          refine ⟨hc1, ?_, ?_, ?_⟩
          · intro m hm hcm
            rcases List.mem_cons.mp hm with hma | hm2
            · rw [hma] at hcm
              exact absurd hcm.2.2.2 hd
            · exact hc2 m hm2 hcm
          · intro j0 m0 d0 h0
            exact absurd h0 (by simp)
          · left
            rcases hc4 with hmem | hbe
            · exact List.mem_cons_of_mem a hmem
            · exact absurd hbe (by simp)
      | some b =>
        obtain ⟨j0, m0, d0⟩ := b
        simp only [findClosestGo] at hres
        rw [if_pos he] at hres
        have hb0 := hbest j0 m0 d0 rfl
        by_cases hcc : |a.hitTime - t| < d0 ∧ |a.hitTime - t| ≤ MISS_WINDOW
        · rw [if_pos hcc] at hres
          have hcand : isCandidate track t a := ⟨he.1, he.2.1, he.2.2, hcc.2⟩
          have hinv : ∀ j2 m2 d2,
              (some (i, a, |a.hitTime - t|) : Option (ℕ × Note × ℚ)) = some (j2, m2, d2) →
              isCandidate track t m2 ∧ d2 = |m2.hitTime - t| := by
            intro j2 m2 d2 hh
            simp only [Option.some.injEq, Prod.mk.injEq] at hh
            rcases hh with ⟨-, hm2, hd2⟩
            rw [← hm2, ← hd2]
            exact ⟨hcand, rfl⟩
          obtain ⟨hc1, hc2, hc3, hc4⟩ := ih (i + 1) _ hinv j n d hres
          have hdlta : d ≤ |a.hitTime - t| := hc3 i a (|a.hitTime - t|) rfl
          refine ⟨hc1, ?_, ?_, ?_⟩
          · intro m hm hcm
            rcases List.mem_cons.mp hm with hma | hm2
            · rw [hma]
              exact hdlta
            · exact hc2 m hm2 hcm
          · intro j1 m1 d1 h1
            simp only [Option.some.injEq, Prod.mk.injEq] at h1
            rw [← h1.2.2]
            exact le_of_lt (lt_of_le_of_lt hdlta hcc.1)
          · left
            rcases hc4 with hmem | hbe
            · exact List.mem_cons_of_mem a hmem
            · simp only [Option.some.injEq, Prod.mk.injEq] at hbe
              rw [← hbe.2.1]
              exact List.mem_cons_self a rest
        · rw [if_neg hcc] at hres
          have hinv : ∀ j2 m2 d2,
              (some (j0, m0, d0) : Option (ℕ × Note × ℚ)) = some (j2, m2, d2) →
              isCandidate track t m2 ∧ d2 = |m2.hitTime - t| := by
            intro j2 m2 d2 hh
            simp only [Option.some.injEq, Prod.mk.injEq] at hh
            rcases hh with ⟨-, hm2, hd2⟩
            rw [← hm2, ← hd2]
            exact hb0
          obtain ⟨hc1, hc2, hc3, hc4⟩ := ih (i + 1) _ hinv j n d hres
          have hdd0 : d ≤ d0 := hc3 j0 m0 d0 rfl
          refine ⟨hc1, ?_, ?_, ?_⟩
          · intro m hm hcm
            rcases List.mem_cons.mp hm with hma | hm2
            · rw [hma] at hcm ⊢
              have hnotlt : ¬(|a.hitTime - t| < d0) := fun hlt => hcc ⟨hlt, hcm.2.2.2⟩
              exact le_trans hdd0 (not_lt.mp hnotlt)
            · exact hc2 m hm2 hcm
          · intro j1 m1 d1 h1
            simp only [Option.some.injEq, Prod.mk.injEq] at h1
            rw [← h1.2.2]
            exact hdd0
          · rcases hc4 with hmem | hbe
            · exact Or.inl (List.mem_cons_of_mem a hmem)
            · exact Or.inr hbe
    · simp only [findClosestGo] at hres
      rw [if_neg he] at hres
      obtain ⟨hc1, hc2, hc3, hc4⟩ := ih (i + 1) best hbest j n d hres
      refine ⟨hc1, ?_, hc3, ?_⟩
      · intro m hm hcm
        rcases List.mem_cons.mp hm with hma | hm2
        · rw [hma] at hcm
          exact absurd ⟨hcm.1, hcm.2.1, hcm.2.2.1⟩ he
        · exact hc2 m hm2 hcm
      · rcases hc4 with hmem | hbe
        · exact Or.inl (List.mem_cons_of_mem a hmem)
        · exact Or.inr hbe

/-- C3: `hit(track, t)` considers only pending notes on the track whose
absolute time difference from t is at most MISS_WINDOW and selects a
candidate minimizing that difference; whenever no such candidate exists
it returns no judgment and returns the state completely unchanged
(score, combo, maxCombo, judgment counts and every note included). -/
theorem hit_candidate_selection (s : NoteManager) (track : ℕ) (t : ℚ) :
    ((∀ n ∈ s.activeNotes, ¬isCandidate track t n) → s.hit track t = (none, s))
    ∧ (∀ i n d, findClosestGo track t s.activeNotes 0 none = some (i, n, d) →
        isCandidate track t n ∧ d = |n.hitTime - t| ∧ n ∈ s.activeNotes
        ∧ ∀ m ∈ s.activeNotes, isCandidate track t m → d ≤ |m.hitTime - t|) := by
  constructor
  · intro h
    unfold NoteManager.hit
    rw [findClosestGo_none track t s.activeNotes 0 h]
  · intro i n d hres
    obtain ⟨⟨hcand, hdeq⟩, hmin, -, hmem⟩ :=
      findClosestGo_spec track t s.activeNotes 0 none (by simp) i n d hres
    refine ⟨hcand, hdeq, ?_, hmin⟩
    rcases hmem with hmem | hbe
    · exact hmem
    · exact absurd hbe (by simp)

theorem judge_window_iff (n : Note) (t : ℚ) (h1 : n.isHit = false) (h2 : n.isMissed = false) :
    ((n.judge t).1 = some Judgment.PERFECT ↔ |n.hitTime - t| ≤ PERFECT_WINDOW)
    ∧ ((n.judge t).1 = some Judgment.GREAT ↔
        PERFECT_WINDOW < |n.hitTime - t| ∧ |n.hitTime - t| ≤ GREAT_WINDOW)
    ∧ ((n.judge t).1 = some Judgment.GOOD ↔
        GREAT_WINDOW < |n.hitTime - t| ∧ |n.hitTime - t| ≤ GOOD_WINDOW)
    ∧ ((n.judge t).1 = some Judgment.MISS ↔
        GOOD_WINDOW < |n.hitTime - t| ∧ |n.hitTime - t| ≤ MISS_WINDOW) := by
  have hw1 : PERFECT_WINDOW < GREAT_WINDOW := by norm_num [PERFECT_WINDOW, GREAT_WINDOW]
  have hw2 : GREAT_WINDOW < GOOD_WINDOW := by norm_num [GREAT_WINDOW, GOOD_WINDOW]
  have hw3 : GOOD_WINDOW < MISS_WINDOW := by norm_num [GOOD_WINDOW, MISS_WINDOW]
  simp only [Note.judge, h1, h2, Bool.or_self, Bool.false_eq_true, if_false]
  split_ifs with hA hB hC hD
  · refine ⟨by simp [hA], ?_, ?_, ?_⟩ <;>
      · simp only [Option.some.injEq, reduceCtorEq, false_iff, not_and, not_le]
        intro hx
        linarith
  · refine ⟨by simp [hA], ?_, ?_, ?_⟩
    · simp [hB, not_le.mp hA]
    · simp only [Option.some.injEq, reduceCtorEq, false_iff, not_and, not_le]
      intro hx
      linarith
    · simp only [Option.some.injEq, reduceCtorEq, false_iff, not_and, not_le]
      intro hx
      linarith
  · refine ⟨by simp [hA], ?_, ?_, ?_⟩
    · simp only [Option.some.injEq, reduceCtorEq, false_iff, not_and, not_le]
      intro hx
      linarith [not_le.mp hB]
    · simp [hC, not_le.mp hB]
    · simp only [Option.some.injEq, reduceCtorEq, false_iff, not_and, not_le]
      intro hx
      linarith
  · refine ⟨by simp [hA], ?_, ?_, ?_⟩
    · simp only [Option.some.injEq, reduceCtorEq, false_iff, not_and, not_le]
      intro hx
      linarith [not_le.mp hB]
    · simp only [Option.some.injEq, reduceCtorEq, false_iff, not_and, not_le]
      intro hx
      linarith [not_le.mp hC]
    · simp [hD, not_le.mp hC]
  · refine ⟨?_, ?_, ?_, ?_⟩ <;>
      · simp only [reduceCtorEq, false_iff, not_and, not_le]
        intros
        linarith [not_le.mp hD]

/-- C4: when `hit` selects a candidate note, the absolute time error is
classified by ordered first-match against the nested windows (each tier
characterised by its half-open interval, first conjunct), and in
particular a selected candidate with absolute error 0.03 s yields tier
Perfect, adds 100 to the score and increments the combo by 1. -/
theorem judge_tiers_and_perfect_press :
    (∀ (n : Note) (t : ℚ), n.isHit = false → n.isMissed = false →
      (((n.judge t).1 = some Judgment.PERFECT ↔ |n.hitTime - t| ≤ PERFECT_WINDOW)
      ∧ ((n.judge t).1 = some Judgment.GREAT ↔
          PERFECT_WINDOW < |n.hitTime - t| ∧ |n.hitTime - t| ≤ GREAT_WINDOW)
      ∧ ((n.judge t).1 = some Judgment.GOOD ↔
          GREAT_WINDOW < |n.hitTime - t| ∧ |n.hitTime - t| ≤ GOOD_WINDOW)
      ∧ ((n.judge t).1 = some Judgment.MISS ↔
          GOOD_WINDOW < |n.hitTime - t| ∧ |n.hitTime - t| ≤ MISS_WINDOW)))
    ∧ (∀ (s : NoteManager) (track : ℕ) (t : ℚ) (i : ℕ) (n : Note),
        findClosestGo track t s.activeNotes 0 none = some (i, n, 3/100) →
        (s.hit track t).1 = some Judgment.PERFECT
        ∧ (s.hit track t).2.score = s.score + 100
        ∧ (s.hit track t).2.combo = s.combo + 1
        ∧ (s.hit track t).2.judgmentCounts.PERFECT = s.judgmentCounts.PERFECT + 1) := by
  constructor
  · exact fun n t h1 h2 => judge_window_iff n t h1 h2
  · intro s track t i n hres
    obtain ⟨⟨hcand, hdeq⟩, -, -, -⟩ :=
      findClosestGo_spec track t s.activeNotes 0 none (by simp) i n (3/100) hres
    have hP : |n.hitTime - t| ≤ PERFECT_WINDOW := by
      rw [← hdeq]
      norm_num [PERFECT_WINDOW]
    have hjudge : n.judge t = (some Judgment.PERFECT, n.hit Judgment.PERFECT) := by
      simp only [Note.judge, hcand.2.1, hcand.2.2.1, Bool.or_self, Bool.false_eq_true, if_false]
      rw [if_pos hP]
    unfold NoteManager.hit
    rw [hres]
    refine ⟨?_, ?_, ?_, ?_⟩ <;>
      simp [hjudge, NoteManager.addJudgment, JUDGMENT_SCORES, JudgmentCounts.inc]

/-- C5: a press judged inside the Miss window but outside the Good
window resolves the note to state Hit (not Missed) with tier Miss, and
every Miss judgment resets combo to 0, adds 0 to the score, and (with
combo at most maxCombo before the reset) leaves maxCombo unchanged. -/
theorem late_press_hits_with_miss_tier (n : Note) (t : ℚ) (s : NoteManager)
    (h1 : n.isHit = false) (h2 : n.isMissed = false)
    (h3 : GOOD_WINDOW < |n.hitTime - t|) (h4 : |n.hitTime - t| ≤ MISS_WINDOW)
    (_h5 : s.combo ≤ s.maxCombo) :
    n.judge t = (some Judgment.MISS, { n with isHit := true })
    ∧ (n.judge t).2.isHit = true
    ∧ (n.judge t).2.isMissed = false
    ∧ (s.addJudgment Judgment.MISS).combo = 0
    ∧ (s.addJudgment Judgment.MISS).maxCombo = s.maxCombo
    ∧ (s.addJudgment Judgment.MISS).score = s.score := by
  have hw1 : PERFECT_WINDOW < GREAT_WINDOW := by norm_num [PERFECT_WINDOW, GREAT_WINDOW]
  have hw2 : GREAT_WINDOW < GOOD_WINDOW := by norm_num [GREAT_WINDOW, GOOD_WINDOW]
  have hjudge : n.judge t = (some Judgment.MISS, { n with isHit := true }) := by
    simp only [Note.judge, h1, h2, Bool.or_self, Bool.false_eq_true, if_false]
    rw [if_neg (by linarith), if_neg (by linarith), if_neg (not_le.mpr h3), if_pos h4]
    simp [Note.hit, h2]
  refine ⟨hjudge, by rw [hjudge], by rw [hjudge]; exact h2, ?_, ?_, ?_⟩ <;>
    simp [NoteManager.addJudgment, JUDGMENT_SCORES]

/-! ## Accuracy lemmas -/

theorem toFixed2_close (q : ℚ) : |toFixed2 q - q| ≤ 1 / 200 := by
  have hle : ((⌊q * 100 + 1 / 2⌋ : ℤ) : ℚ) ≤ q * 100 + 1 / 2 := Int.floor_le _
  have hgt : q * 100 + 1 / 2 - 1 < ((⌊q * 100 + 1 / 2⌋ : ℤ) : ℚ) := Int.sub_one_lt_floor _
  rw [abs_le, toFixed2]
  constructor <;> linarith

/-- C9 amended: the derived accuracy is a pure function of the judgment
counts: with zero recorded judgments it equals 100, and otherwise it
equals the weighted formula (100 P + 80 G + 50 Good)/(total·100)·100
rounded to two decimal places by `toFixed(2)` (so it is within 1/200 of
the exact formula value); counts one Perfect and one Great give exactly
90.00. -/
theorem accuracy_rounded (s : NoteManager) :
    (s.judgmentCounts.total = 0 → s.calculateAccuracy = 100)
    ∧ (s.judgmentCounts.total ≠ 0 →
        s.calculateAccuracy
          = toFixed2 ((100 * s.judgmentCounts.PERFECT + 80 * s.judgmentCounts.GREAT
              + 50 * s.judgmentCounts.GOOD : ℚ) / (s.judgmentCounts.total * 100) * 100)
        ∧ |s.calculateAccuracy
            - (100 * s.judgmentCounts.PERFECT + 80 * s.judgmentCounts.GREAT
              + 50 * s.judgmentCounts.GOOD : ℚ) / (s.judgmentCounts.total * 100) * 100| ≤ 1 / 200)
    ∧ managerAcc1.calculateAccuracy = 90 := by
  refine ⟨?_, ?_, ?_⟩
  · intro h
    simp only [NoteManager.calculateAccuracy]
    rw [if_pos h]
  · intro h
    have hF : ((s.judgmentCounts.PERFECT * 100 + s.judgmentCounts.GREAT * 80
          + s.judgmentCounts.GOOD * 50 : ℕ) : ℚ) / ((s.judgmentCounts.total : ℚ) * 100) * 100
        = (100 * s.judgmentCounts.PERFECT + 80 * s.judgmentCounts.GREAT
          + 50 * s.judgmentCounts.GOOD : ℚ) / (s.judgmentCounts.total * 100) * 100 := by
      push_cast
      ring
    simp only [NoteManager.calculateAccuracy]
    rw [if_neg h, hF]
    exact ⟨rfl, toFixed2_close _⟩
  · norm_num [managerAcc1, NoteManager.init, NoteManager.calculateAccuracy,
      JudgmentCounts.total, toFixed2]

/-- C9 counterexample: with two Perfects and one Great recorded, the
code returns 93.33 — the toFixed(2) rounding of the formula value
280/3 = 93.333… — so the accuracy does not equal the claim's exact
formula (100·2 + 80·1 + 50·0)/(3·100)·100. -/
theorem accuracy_differs_from_exact_formula :
    managerAcc2.calculateAccuracy
      ≠ (100 * 2 + 80 * 1 + 50 * 0 : ℚ) / ((2 + 1 + 0 + 0) * 100) * 100
    ∧ managerAcc2.calculateAccuracy = 9333 / 100 := by
  have hacc : managerAcc2.calculateAccuracy = 9333 / 100 := by
    norm_num [managerAcc2, countsTwoOne, NoteManager.init, NoteManager.calculateAccuracy,
      JudgmentCounts.total, toFixed2]
  refine ⟨?_, hacc⟩
  rw [hacc]
  norm_num

/-! ## Chart-sorting lemmas -/

theorem insertSorted_perm (e : ChartEntry) :
    ∀ l : List ChartEntry, (insertSorted e l).Perm (e :: l) := by
  intro l
  induction l with
  | nil => exact List.Perm.refl _
  | cons x xs ih =>
    rw [insertSorted]
    by_cases h : e.time ≤ x.time
    · rw [if_pos h]
    · rw [if_neg h]
      exact (ih.cons x).trans (List.Perm.swap e x xs)

theorem sortChart_perm : ∀ l : List ChartEntry, (sortChart l).Perm l := by
  intro l
  induction l with
  | nil => exact List.Perm.refl _
  | cons x xs ih =>
    rw [sortChart]
    exact (insertSorted_perm x (sortChart xs)).trans (ih.cons x)

theorem insertSorted_pairwise (e : ChartEntry) :
    ∀ l : List ChartEntry, l.Pairwise (fun a b => a.time ≤ b.time) →
      (insertSorted e l).Pairwise (fun a b => a.time ≤ b.time) := by
  intro l
  induction l with
  | nil => intro _; simp [insertSorted]
  | cons x xs ih =>
    intro hp
    rcases List.pairwise_cons.mp hp with ⟨hx, hxs⟩
    rw [insertSorted]
    by_cases h : e.time ≤ x.time
    · rw [if_pos h]
      refine List.pairwise_cons.mpr ⟨?_, hp⟩
      intro b hb
      rcases List.mem_cons.mp hb with hbx | hb2
      · rw [hbx]
        exact h
      · exact le_trans h (hx b hb2)
    · rw [if_neg h]
      refine List.pairwise_cons.mpr ⟨?_, ih hxs⟩
      intro b hb
      have hmem : b ∈ e :: xs := (insertSorted_perm e xs).mem_iff.mp hb
      rcases List.mem_cons.mp hmem with hbe | hb2
      · rw [hbe]
        exact (not_le.mp h).le
      · exact hx b hb2

theorem sortChart_pairwise :
    ∀ l : List ChartEntry, (sortChart l).Pairwise fun a b => a.time ≤ b.time := by
  intro l
  induction l with
  | nil => simp [sortChart]
  | cons x xs ih =>
    rw [sortChart]
    exact insertSorted_pairwise x _ ih

theorem sorted_strict (l : List ChartEntry)
    (hle : l.Pairwise fun a b => a.time ≤ b.time)
    (hne : l.Pairwise fun a b => a.time ≠ b.time) :
    l.Pairwise chartLt :=
  List.Pairwise.imp (fun h => lt_of_le_of_ne h.1 h.2) (hle.and hne)

/-- C10: `loadChart` stores the chart sorted ascending by time (a
permutation of its input) and resets the consumption index to 0; two
input charts that are permutations of each other with pairwise-distinct
times produce the same stored sequence, hence the same spawn order. -/
theorem loadChart_sorts_and_canonicalizes (s s2 : NoteManager) (c1 c2 : List ChartEntry)
    (hperm : c1.Perm c2)
    (hne : c1.Pairwise fun a b => a.time ≠ b.time) :
    (s.loadChart c1).chart.Pairwise (fun a b => a.time ≤ b.time)
    ∧ (s.loadChart c1).chart.Perm c1
    ∧ (s.loadChart c1).chartIndex = 0
    ∧ (s.loadChart c1).chart = (s2.loadChart c2).chart := by
  have hsym : ∀ {x y : ChartEntry}, x.time ≠ y.time → y.time ≠ x.time := fun h => h.symm
  have hp1 : (sortChart c1).Perm c1 := sortChart_perm c1
  have hp2 : (sortChart c2).Perm c2 := sortChart_perm c2
  have hne1 : (sortChart c1).Pairwise fun a b => a.time ≠ b.time :=
    (List.Perm.pairwise_iff hsym hp1).mpr hne
  have hne2raw : c2.Pairwise fun a b => a.time ≠ b.time :=
    (List.Perm.pairwise_iff hsym hperm).mp hne
  have hne2 : (sortChart c2).Pairwise fun a b => a.time ≠ b.time :=
    (List.Perm.pairwise_iff hsym hp2).mpr hne2raw
  have hs1 : (sortChart c1).Pairwise chartLt := sorted_strict _ (sortChart_pairwise c1) hne1
  have hs2 : (sortChart c2).Pairwise chartLt := sorted_strict _ (sortChart_pairwise c2) hne2
  have hpp : (sortChart c1).Perm (sortChart c2) := hp1.trans (hperm.trans hp2.symm)
  have heq : sortChart c1 = sortChart c2 := List.eq_of_perm_of_sorted hpp hs1 hs2
  exact ⟨sortChart_pairwise c1, hp1, rfl, heq⟩

/-! ## Witness instantiations -/

theorem spawn_window_witness :
    (managerEx.spawnNotes 1).chartIndex = 2
    ∧ (managerEx.spawnNotes 1).activeNotes = [⟨0, 3, false, false⟩, ⟨1, 3, false, false⟩] := by
  have h := spawn_exactly_lookahead_window managerEx 1 (by
    norm_num [managerEx, chartEx, NoteManager.loadChart, NoteManager.init, sortChart,
      insertSorted, List.pairwise_cons])
  exact ⟨h.2.2.1, h.2.1⟩

theorem hit_no_candidate_witness :
    managerFar.hit 0 0 = (none, managerFar) := by
  apply (hit_candidate_selection managerFar 0 0).1
  intro n hn
  have hn2 : n = ⟨0, 10, false, false⟩ := by
    simpa [managerFar, NoteManager.init] using hn
  rw [hn2]
  intro hcand
  have h1 : ((⟨0, 10, false, false⟩ : Note)).hitTime = 10 := rfl
  have h2 := hcand.2.2.2
  rw [h1, sub_zero, abs_of_nonneg (by norm_num : (0:ℚ) ≤ 10)] at h2
  norm_num [MISS_WINDOW] at h2

theorem perfect_press_witness :
    (managerOneNote.hit 0 (303/100)).1 = some Judgment.PERFECT
    ∧ (managerOneNote.hit 0 (303/100)).2.score = managerOneNote.score + 100
    ∧ (managerOneNote.hit 0 (303/100)).2.combo = managerOneNote.combo + 1
    ∧ ((⟨0, 3, false, false⟩ : Note).judge (303/100)).1 = some Judgment.PERFECT := by
  have habs : |(3 : ℚ) - 303/100| = 3/100 := by
    rw [show (3 : ℚ) - 303/100 = -(3/100) by norm_num, abs_neg,
      abs_of_nonneg (by norm_num : (0:ℚ) ≤ 3/100)]
  have hfind : findClosestGo 0 (303/100) managerOneNote.activeNotes 0 none
      = some (0, ⟨0, 3, false, false⟩, 3/100) := by
    show findClosestGo 0 (303/100) [⟨0, 3, false, false⟩] 0 none = _
    simp only [findClosestGo]
    rw [if_pos ⟨trivial, trivial, trivial⟩, habs,
      if_pos (by norm_num [MISS_WINDOW] : (3:ℚ)/100 ≤ MISS_WINDOW)]
  obtain ⟨h1, h2, h3, -⟩ := judge_tiers_and_perfect_press.2 managerOneNote 0 (303/100) 0
    ⟨0, 3, false, false⟩ hfind
  refine ⟨h1, h2, h3, ?_⟩
  exact (judge_tiers_and_perfect_press.1 ⟨0, 3, false, false⟩ (303/100) rfl rfl).1.mpr
    (by rw [show ((⟨0, 3, false, false⟩ : Note)).hitTime = 3 from rfl, habs]
        norm_num [PERFECT_WINDOW])

theorem late_press_witness :
    Note.judge (318/100) ⟨0, 3, false, false⟩ = (some Judgment.MISS, ⟨0, 3, true, false⟩)
    ∧ (NoteManager.init.addJudgment Judgment.MISS).combo = 0
    ∧ (NoteManager.init.addJudgment Judgment.MISS).maxCombo = NoteManager.init.maxCombo
    ∧ (NoteManager.init.addJudgment Judgment.MISS).score = NoteManager.init.score := by
  have habs : |((⟨0, 3, false, false⟩ : Note)).hitTime - 318/100| = 18/100 := by
    rw [show ((⟨0, 3, false, false⟩ : Note)).hitTime = 3 from rfl,
      show (3 : ℚ) - 318/100 = -(18/100) by norm_num, abs_neg,
      abs_of_nonneg (by norm_num : (0:ℚ) ≤ 18/100)]
  have h := late_press_hits_with_miss_tier ⟨0, 3, false, false⟩ (318/100) NoteManager.init
    rfl rfl (by rw [habs]; norm_num [GOOD_WINDOW]) (by rw [habs]; norm_num [MISS_WINDOW])
    (le_refl 0)
  exact ⟨h.1, h.2.2.2.1, h.2.2.2.2.1, h.2.2.2.2.2⟩

theorem pause_resume_witness :
    (Conductor.ticks [100, 200] condRunning.pause).getCurrentTime = 5
    ∧ ((Conductor.ticks [100, 200] condRunning.pause).start 1000).getCurrentTime = 5
    ∧ (((Conductor.ticks [100, 200] condRunning.pause).start 1000).update 1500).getCurrentTime
        = 5 + (1500 - 1000) / 1000 :=
  pause_freezes_start_resumes condRunning [100, 200] 1000 1500 rfl
    (Or.inl (by norm_num [condRunning]))

theorem tick_monotone_witness :
    (condRunning.tickTrace [100, 200, 300]).Chain' (· ≤ ·) :=
  tick_reads_monotone condRunning [100, 200, 300] rfl
    (by norm_num [List.chain'_cons, List.chain'_singleton])

theorem accuracy_witness :
    NoteManager.init.calculateAccuracy = 100
    ∧ managerAcc1.calculateAccuracy
        = toFixed2 ((100 * managerAcc1.judgmentCounts.PERFECT
            + 80 * managerAcc1.judgmentCounts.GREAT
            + 50 * managerAcc1.judgmentCounts.GOOD : ℚ)
          / (managerAcc1.judgmentCounts.total * 100) * 100) := by
  refine ⟨(accuracy_rounded NoteManager.init).1 ?_, ((accuracy_rounded managerAcc1).2.1 ?_).1⟩
  · norm_num [NoteManager.init, JudgmentCounts.total, JudgmentCounts.zero]
  · norm_num [managerAcc1, NoteManager.init, JudgmentCounts.total]

theorem loadChart_canonical_witness :
    (NoteManager.init.loadChart chartPermA).chart
      = (NoteManager.init.loadChart chartPermB).chart :=
  (loadChart_sorts_and_canonicalizes NoteManager.init NoteManager.init chartPermA chartPermB
    (by simp only [chartPermA, chartPermB]; exact List.Perm.swap _ _ _)
    (by norm_num [chartPermA, List.pairwise_cons])).2.2.2

end FingerFlow
